import Mathlib

/-!
Shallow embedding of db_brute.py (a concurrent database-credential checker)
and proofs of the specified properties of its trial-orchestration engine.

The embedding translates the Python source:
- `Status` (thread-safe tracker) becomes a `Status` structure with pure
  state-transition functions; all of its methods run under one exclusive
  lock in the source, so each method is modelled as one atomic transition.
- `test_credential` becomes a pure function from the tracker state and the
  driver's behaviour on this trial to an outcome, a driver-invoked flag and
  the new tracker state.
- A run is a fold of `test_credential` over a list of trials; the per-host
  lock serialises all trials of one target, and the tracker lock makes each
  tracker method atomic, so every concurrent execution corresponds to some
  sequential order of these atomic transitions.
- The host-lock discipline itself (acquire the target's lock, hold it
  across the driver call) is modelled separately as a small-step system
  `PoolStep` to prove mutual exclusion per target.
-/

set_option autoImplicit false

namespace DbBrute

/-- A network endpoint under test: identity is the exact (host, port) pair. -/
structure Target where
  host : String
  port : Nat
deriving DecidableEq, Repr

/-- A username/password pair to try. -/
structure Credential where
  username : String
  password : String
deriving DecidableEq, Repr

/-- The key under which the source indexes a target in the unreachable set:
the Python f-string `f"{host}:{port}"` which is host, a colon, then the port. -/
def targetKey (host : String) (port : Nat) : String :=
  host ++ ":" ++ toString port

/-- Behaviour of `driver.connect` on one trial: either it returns an
authentication verdict, or it raises `HostUnreachable` with a reason. -/
inductive DriverResult where
  | ok (authenticated : Bool)
  | unreachable (reason : String)
deriving DecidableEq, Repr

/-- The outcome classification of one trial. -/
inductive Outcome where
  | success
  | failure
  | skipped (reason : String)
deriving DecidableEq, Repr

/-- State of the `Status` tracker (class `Status` in db_brute.py).
The Python set `unreachable_hosts` of `host:port` strings is modelled as a
list; `mark_unreachable` checks membership before inserting, so it stays
duplicate-free. File handles are I/O and carry no state that the claims
depend on; the lines written are modelled where a claim mentions them. -/
structure Status where
  total : Nat
  completed : Nat
  valid_count : Nat
  unreachable_hosts : List String
deriving DecidableEq, Repr

/-- `Status.__init__(total, ...)`: counters start at zero, set empty. -/
def Status.init (total : Nat) : Status :=
  { total := total, completed := 0, valid_count := 0, unreachable_hosts := [] }

/-- `Status.update`: increments `completed`; on success also increments
`valid_count` (and appends to the output file and announces, which are I/O). -/
def Status.update (s : Status) (_host : String) (_port : Nat)
    (_username _password : String) (success : Bool) : Status :=
  let s1 := { s with completed := s.completed + 1 }
  if success then { s1 with valid_count := s1.valid_count + 1 } else s1

/-- `Status.skip`: increments `completed` (and logs a SKIPPED line). -/
def Status.skip (s : Status) (_host : String) (_port : Nat)
    (_username _password : String) (_reason : String) : Status :=
  { s with completed := s.completed + 1 }

/-- `Status.mark_unreachable`: if the target's key is already in the set,
returns `false` with no state change and no announcement; otherwise adds the
key, emits the console announcement and returns `true`. The result is
(newly-marked signal, new state, announcement written to stdout if any). -/
def Status.mark_unreachable (s : Status) (host : String) (port : Nat)
    (reason : String) : Bool × Status × Option String :=
  if targetKey host port ∈ s.unreachable_hosts then
    (false, s, none)
  else
    (true, { s with unreachable_hosts := targetKey host port :: s.unreachable_hosts },
      some ("\n[!] Marking " ++ targetKey host port ++ " as unreachable: "
        ++ reason ++ "\n"))

/-- `Status.is_unreachable`: membership of the target's key in the set. -/
def Status.is_unreachable (s : Status) (host : String) (port : Nat) : Bool :=
  targetKey host port ∈ s.unreachable_hosts

/-- `Status.set_current`: only redraws the status line; no state change. -/
def Status.set_current (s : Status) (_host : String) (_port : Nat)
    (_username _password : String) : Status :=
  s

/-- `Status.finish`: only clears the status line; no state change. -/
def Status.finish (s : Status) : Status :=
  s

/-- One trial unit: the credential, the target, and what `driver.connect`
would do if invoked for this trial. -/
structure Trial where
  cred : Credential
  targ : Target
  res : DriverResult
deriving DecidableEq, Repr

/-- `test_credential` from db_brute.py, holding the host lock throughout:
re-check the unreachable flag (skip without calling the driver if set),
otherwise invoke the driver; on `HostUnreachable` mark the host and skip
with the exception's message, else record the verdict via `update`.
Returns (outcome, whether the driver was invoked, new tracker state). -/
def test_credential (s : Status) (t : Trial) : Outcome × Bool × Status :=
  if Status.is_unreachable s t.targ.host t.targ.port then
    (Outcome.skipped "unreachable", false,
      Status.skip s t.targ.host t.targ.port t.cred.username t.cred.password "unreachable")
  else
    let s0 := Status.set_current s t.targ.host t.targ.port t.cred.username t.cred.password
    match t.res with
    | DriverResult.unreachable reason =>
        (Outcome.skipped reason, true,
          Status.skip (Status.mark_unreachable s0 t.targ.host t.targ.port reason).2.1
            t.targ.host t.targ.port t.cred.username t.cred.password reason)
    | DriverResult.ok auth =>
        ((if auth then Outcome.success else Outcome.failure), true,
          Status.update s0 t.targ.host t.targ.port t.cred.username t.cred.password auth)

/-- A run: fold `test_credential` over the trial list in the order the
tracker's lock serialises their completions; returns the final tracker state
and, aligned with the trials, each trial's (outcome, driver-invoked) pair. -/
def runAll (s : Status) : List Trial → Status × List (Outcome × Bool)
  | [] => (s, [])
  | t :: ts =>
      let r := test_credential s t
      let rest := runAll r.2.2 ts
      (rest.1, (r.1, r.2.1) :: rest.2)

/-- The ordered trial sequence `main` submits: the credential loop is outer,
the target loop inner (`for username, password in credentials: for host,
port in targets: executor.submit(...)`). -/
def trialPairs (credentials : List Credential) (targets : List Target) :
    List (Credential × Target) :=
  credentials.flatMap (fun c => targets.map (fun t => (c, t)))

/-- The submitted trials together with the driver's behaviour on each. -/
def buildTrials (credentials : List Credential) (targets : List Target)
    (f : Credential → Target → DriverResult) : List Trial :=
  (trialPairs credentials targets).map (fun ct => ⟨ct.1, ct.2, f ct.1 ct.2⟩)

/-- Exit signalling at the end of `main`: `sys.exit(0)` when at least one
valid credential was found, `sys.exit(1)` otherwise. -/
def exitCode (valid_count : Nat) : Nat :=
  if valid_count > 0 then 0 else 1

/-- Python list/string slicing `s[:k]` on a character list: a non-negative
stop takes that many characters; a negative stop counts from the end, with
the result empty when it reaches past the start. -/
def pySliceTo (l : List Char) (k : Int) : List Char :=
  if 0 ≤ k then l.take k.toNat
  else l.take (l.length - min l.length (-k).toNat)

/-- The `{pct:.1f}` percentage text of `_draw_status`: completed/total as a
percentage rendered with one decimal digit (zero when `total` is zero).
The Python float is modelled by rounding to the nearest tenth. -/
def formatPct (completed total : Nat) : String :=
  if total = 0 then "0.0"
  else
    let tenths := (completed * 1000 + total / 2) / total
    toString (tenths / 10) ++ "." ++ toString (tenths % 10)

/-- The status text `_draw_status` builds before truncation. -/
def statusLine (s : Status) (target username password : String) : String :=
  "[" ++ toString s.completed ++ "/" ++ toString s.total ++ " ("
    ++ formatPct s.completed s.total ++ "%)] Valid: " ++ toString s.valid_count
    ++ " | Testing: " ++ target ++ " - " ++ username ++ ":" ++ password

/-- The truncation step of `_draw_status`: when the status text is longer
than the terminal width it becomes `status[:cols-3] + "..."`. -/
def truncateStatus (status : String) (cols : Nat) : String :=
  if status.length > cols then
    ((pySliceTo status.toList ((cols : Int) - 3)) ++ "...".toList).asString
  else status

/-- What `_draw_status` writes to stdout: carriage return, clear-to-end-of-
line, then the (possibly truncated) status text. -/
def drawStatus (s : Status) (target username password : String)
    (cols : Nat) : String :=
  "\r" ++ "\x1b[K" ++ truncateStatus (statusLine s target username password) cols

/-- Phase of one worker with respect to one trial's driver call. -/
inductive WPhase where
  | idle
  | inFlight
  | done
deriving DecidableEq, Repr

/-- State of the worker pool with respect to the per-host locks: each
worker's phase, and for each target the worker currently holding its lock
(`none` when free). `main` creates exactly one lock per distinct target
before dispatch, so workers aiming at the same target contend for the same
lock cell. -/
structure PoolState (n : Nat) where
  phase : Fin n → WPhase
  owner : Target → Option (Fin n)

/-- Before dispatch: every worker idle, every lock free. -/
def initPool (n : Nat) : PoolState n :=
  { phase := fun _ => WPhase.idle, owner := fun _ => none }

/-- Small-step semantics of `test_credential`'s locking: a worker enters its
driver call only by acquiring its target's lock (possible only when free),
and releases the lock when the call is over. The driver call happens
entirely between the two steps, i.e. while the lock is held. -/
inductive PoolStep (n : Nat) (tgt : Fin n → Target) :
    PoolState n → PoolState n → Prop where
  | acquire (s : PoolState n) (w : Fin n) :
      s.phase w = WPhase.idle → s.owner (tgt w) = none →
      PoolStep n tgt s
        { phase := Function.update s.phase w WPhase.inFlight,
          owner := Function.update s.owner (tgt w) (some w) }
  | release (s : PoolState n) (w : Fin n) :
      s.phase w = WPhase.inFlight →
      PoolStep n tgt s
        { phase := Function.update s.phase w WPhase.done,
          owner := Function.update s.owner (tgt w) none }

/-- Pool states reachable from the initial state by lock steps. -/
inductive PoolReach (n : Nat) (tgt : Fin n → Target) : PoolState n → Prop where
  | init : PoolReach n tgt (initPool n)
  | step {s s2 : PoolState n} : PoolReach n tgt s → PoolStep n tgt s s2 →
      PoolReach n tgt s2

/-- Python `line.split(':', 1)` on a character list, assuming a colon is
present: the characters before the first colon and the characters after it. -/
def splitFirstColon : List Char → List Char × List Char
  | [] => ([], [])
  | c :: cs =>
      if c = ':' then ([], cs)
      else
        let r := splitFirstColon cs
        (c :: r.1, r.2)

/-- `parse_credential_file` from db_brute.py, over the file's lines: strip
each line; drop it when empty or starting with `#`; when it contains a
colon, split at the first colon into (username, password) and keep the pair
in file order; otherwise drop it silently. -/
def parse_credential_file : List String → List (String × String)
  | [] => []
  | l :: ls =>
      let line := l.trim
      if line = "" then parse_credential_file ls
      else if line.startsWith "#" then parse_credential_file ls
      else if line.contains ':' then
        let r := splitFirstColon line.toList
        (r.1.asString, r.2.asString) :: parse_credential_file ls
      else parse_credential_file ls

/-- Modelled from the claim's words, for comparison with
`parse_credential_file`: keep exactly the lines that, after stripping, are
non-empty, do not start with `#` and contain a colon; map each kept line to
the split at its first colon, preserving file order. -/
def parseSpecLines (lines : List String) : List (String × String) :=
  (lines.filter (fun l =>
      l.trim != "" && !l.trim.startsWith "#" && l.trim.contains ':')).map
    (fun l => ((splitFirstColon l.trim.toList).1.asString,
               (splitFirstColon l.trim.toList).2.asString))

/-! ## Basic lemmas about the embedded operations -/

/-- Every branch of `test_credential` increments `completed` exactly once:
the marked-host branch and the `HostUnreachable` branch call `skip`, the
remaining branch calls `update`, and each adds one. -/
theorem test_credential_completed (s : Status) (t : Trial) :
    (test_credential s t).2.2.completed = s.completed + 1 := by
  unfold test_credential
  split
  · rfl
  · cases t.res with
    | unreachable reason =>
        simp only [Status.mark_unreachable, Status.set_current]
        split <;> rfl
    | ok auth =>
        simp only [Status.update, Status.set_current]
        split <;> rfl

/-- No branch of `test_credential` changes the `total` field. -/
theorem test_credential_total (s : Status) (t : Trial) :
    (test_credential s t).2.2.total = s.total := by
  unfold test_credential
  split
  · rfl
  · cases t.res with
    | unreachable reason =>
        simp only [Status.mark_unreachable, Status.set_current]
        split <;> rfl
    | ok auth =>
        simp only [Status.update, Status.set_current]
        split <;> rfl

/-- A run increments `completed` once per trial. -/
theorem runAll_completed (tr : List Trial) (s : Status) :
    (runAll s tr).1.completed = s.completed + tr.length := by
  induction tr generalizing s with
  | nil => rfl
  | cons t ts ih =>
      show (runAll (test_credential s t).2.2 ts).1.completed = _
      rw [ih, test_credential_completed]
      simp [Nat.add_assoc, Nat.add_comm 1]

/-- A run leaves the `total` field unchanged. -/
theorem runAll_total (tr : List Trial) (s : Status) :
    (runAll s tr).1.total = s.total := by
  induction tr generalizing s with
  | nil => rfl
  | cons t ts ih =>
      show (runAll (test_credential s t).2.2 ts).1.total = _
      rw [ih, test_credential_total]

/-- The trial sequence has one entry per credential/target pair. -/
theorem trialPairs_length (credentials : List Credential) (targets : List Target) :
    (trialPairs credentials targets).length =
      credentials.length * targets.length := by
  induction credentials with
  | nil => simp [trialPairs]
  | cons c cs ih =>
      simp only [trialPairs, List.flatMap_cons, List.length_append,
        List.length_map, List.length_cons] at *
      rw [ih]
      ring

/-- `buildTrials` submits exactly one trial per credential/target pair. -/
theorem buildTrials_length (credentials : List Credential) (targets : List Target)
    (f : Credential → Target → DriverResult) :
    (buildTrials credentials targets f).length =
      credentials.length * targets.length := by
  simp [buildTrials, trialPairs_length]

/-- One atomic operation of the `Status` tracker: each method of the class
runs entirely under `self.lock`, so a run's tracker history is a sequence of
these operations. -/
inductive StatusOp where
  | update (host : String) (port : Nat) (username password : String) (success : Bool)
  | skip (host : String) (port : Nat) (username password : String) (reason : String)
  | mark (host : String) (port : Nat) (reason : String)
  | setCurrent (host : String) (port : Nat) (username password : String)
  | finish
deriving DecidableEq, Repr

/-- The state transition performed by one tracker operation. -/
def applyStatusOp (s : Status) : StatusOp → Status
  | StatusOp.update h p u pw b => Status.update s h p u pw b
  | StatusOp.skip h p u pw r => Status.skip s h p u pw r
  | StatusOp.mark h p r => (Status.mark_unreachable s h p r).2.1
  | StatusOp.setCurrent h p u pw => Status.set_current s h p u pw
  | StatusOp.finish => Status.finish s

/-- Operations that count a trial as completed: `update` and `skip`. -/
def isCompleting : StatusOp → Bool
  | StatusOp.update _ _ _ _ _ => true
  | StatusOp.skip _ _ _ _ _ => true
  | _ => false

/-- The tracker state after a sequence of operations. -/
def runOps (s : Status) (ops : List StatusOp) : Status :=
  ops.foldl applyStatusOp s

@[simp]
theorem Status.update_completed (s : Status) (h : String) (p : Nat)
    (u pw : String) (b : Bool) :
    (Status.update s h p u pw b).completed = s.completed + 1 := by
  unfold Status.update
  split <;> rfl

@[simp]
theorem Status.update_total (s : Status) (h : String) (p : Nat)
    (u pw : String) (b : Bool) :
    (Status.update s h p u pw b).total = s.total := by
  unfold Status.update
  split <;> rfl

@[simp]
theorem Status.update_valid (s : Status) (h : String) (p : Nat)
    (u pw : String) (b : Bool) :
    (Status.update s h p u pw b).valid_count =
      if b then s.valid_count + 1 else s.valid_count := by
  unfold Status.update
  split <;> simp_all

@[simp]
theorem Status.update_hosts (s : Status) (h : String) (p : Nat)
    (u pw : String) (b : Bool) :
    (Status.update s h p u pw b).unreachable_hosts = s.unreachable_hosts := by
  unfold Status.update
  split <;> rfl

@[simp]
theorem Status.mark_state_completed (s : Status) (h : String) (p : Nat)
    (r : String) :
    (Status.mark_unreachable s h p r).2.1.completed = s.completed := by
  unfold Status.mark_unreachable
  split <;> rfl

@[simp]
theorem Status.mark_state_total (s : Status) (h : String) (p : Nat)
    (r : String) :
    (Status.mark_unreachable s h p r).2.1.total = s.total := by
  unfold Status.mark_unreachable
  split <;> rfl

@[simp]
theorem Status.mark_state_valid (s : Status) (h : String) (p : Nat)
    (r : String) :
    (Status.mark_unreachable s h p r).2.1.valid_count = s.valid_count := by
  unfold Status.mark_unreachable
  split <;> rfl

/-- Marking only ever grows the unreachable set, by the target's own key. -/
theorem Status.mark_state_hosts (s : Status) (h : String) (p : Nat)
    (r : String) :
    (Status.mark_unreachable s h p r).2.1.unreachable_hosts = s.unreachable_hosts
      ∨ (Status.mark_unreachable s h p r).2.1.unreachable_hosts =
          targetKey h p :: s.unreachable_hosts := by
  unfold Status.mark_unreachable
  split
  · exact Or.inl rfl
  · exact Or.inr rfl

/-- `completed` grows by exactly the number of completing operations. -/
theorem runOps_completed (ops : List StatusOp) (s : Status) :
    (runOps s ops).completed = s.completed + ops.countP isCompleting := by
  induction ops generalizing s with
  | nil => simp [runOps]
  | cons op ops ih =>
      show (runOps (applyStatusOp s op) ops).completed = _
      rw [ih, List.countP_cons]
      have hstep : (applyStatusOp s op).completed =
          s.completed + (if isCompleting op then 1 else 0) := by
        cases op <;>
          simp [applyStatusOp, isCompleting, Status.skip, Status.set_current,
            Status.finish]
      rw [hstep]
      cases hc : isCompleting op
      · simp [hc]
      · simp [hc]
        omega

/-- Each tracker operation keeps `valid_count ≤ completed`. -/
theorem applyStatusOp_valid_le (s : Status) (op : StatusOp)
    (h : s.valid_count ≤ s.completed) :
    (applyStatusOp s op).valid_count ≤ (applyStatusOp s op).completed := by
  cases op <;>
    simp [applyStatusOp, Status.skip, Status.set_current, Status.finish, h] <;>
    (try split) <;> omega

/-- No tracker operation decreases `completed`. -/
theorem applyStatusOp_completed_mono (s : Status) (op : StatusOp) :
    s.completed ≤ (applyStatusOp s op).completed := by
  cases op <;>
    simp [applyStatusOp, Status.skip, Status.set_current, Status.finish]

/-- `valid_count ≤ completed` holds after any operation sequence starting
from a state satisfying it. -/
theorem runOps_valid_le (ops : List StatusOp) (s : Status)
    (h : s.valid_count ≤ s.completed) :
    (runOps s ops).valid_count ≤ (runOps s ops).completed := by
  induction ops generalizing s with
  | nil => exact h
  | cons op ops ih =>
      exact ih (applyStatusOp s op) (applyStatusOp_valid_le s op h)

/-! ## Claim theorems -/

/-- C1: in every run in which all submitted trials complete (in any
completion order, i.e. any permutation of the submitted cross-product of
credentials and targets, each trial ending in Success, Failure or Skipped,
including trials raising `HostUnreachable`), the final `completed` counter
equals `total`, and `total` equals |targets| × |credentials|; moreover every
trial increments `completed` exactly once regardless of its outcome. -/
theorem c1_completed_equals_total (targets : List Target)
    (credentials : List Credential) (f : Credential → Target → DriverResult)
    (run : List Trial)
    (hperm : run.Perm (buildTrials credentials targets f)) :
    (runAll (Status.init (targets.length * credentials.length)) run).1.completed
        = (runAll (Status.init (targets.length * credentials.length)) run).1.total
      ∧ (runAll (Status.init (targets.length * credentials.length)) run).1.total
        = targets.length * credentials.length
      ∧ ∀ (s : Status) (tr : List Trial),
          (runAll s tr).1.completed = s.completed + tr.length := by
  refine ⟨?_, ?_, fun s tr => runAll_completed tr s⟩
  · rw [runAll_completed, runAll_total, hperm.length_eq, buildTrials_length]
    simp [Status.init, Nat.mul_comm]
  · rw [runAll_total]
    rfl

/-- Witness for C1 at a concrete run: one target, one credential, a failing
driver; the run completes with `completed = total = 1`. -/
theorem c1_completed_equals_total_witness :
    ((runAll (Status.init ([Target.mk "h" 1].length * [Credential.mk "u" "p"].length))
        (buildTrials [Credential.mk "u" "p"] [Target.mk "h" 1]
          (fun _ _ => DriverResult.ok false))).1.completed
      = (runAll (Status.init ([Target.mk "h" 1].length * [Credential.mk "u" "p"].length))
        (buildTrials [Credential.mk "u" "p"] [Target.mk "h" 1]
          (fun _ _ => DriverResult.ok false))).1.total)
    ∧ (runAll (Status.init ([Target.mk "h" 1].length * [Credential.mk "u" "p"].length))
        (buildTrials [Credential.mk "u" "p"] [Target.mk "h" 1]
          (fun _ _ => DriverResult.ok false))).1.total
      = [Target.mk "h" 1].length * [Credential.mk "u" "p"].length :=
  let h := c1_completed_equals_total [Target.mk "h" 1] [Credential.mk "u" "p"]
    (fun _ _ => DriverResult.ok false) _ (List.Perm.refl _)
  ⟨h.1, h.2.1⟩

/-- C2: during a run (a sequence of tracker operations containing at most
`total` completing operations, as a run submits exactly `total` trials and
each performs one completing operation), every observation point — every
prefix of the operation sequence from the initial state — satisfies
`valid_count ≤ completed ≤ total`; moreover every operation leaves
`completed` non-decreasing, `update` and `skip` each increment `completed`
by exactly one, and `update` increments `valid_count` by at most one. -/
theorem c2_progress_invariants (total : Nat) (ops : List StatusOp)
    (hbound : ops.countP isCompleting ≤ total) :
    (∀ n : Nat,
        (runOps (Status.init total) (ops.take n)).valid_count
            ≤ (runOps (Status.init total) (ops.take n)).completed
          ∧ (runOps (Status.init total) (ops.take n)).completed ≤ total)
      ∧ (∀ (s : Status) (op : StatusOp),
          s.completed ≤ (applyStatusOp s op).completed)
      ∧ (∀ (s : Status) (h : String) (p : Nat) (u pw : String) (b : Bool),
          (Status.update s h p u pw b).completed = s.completed + 1)
      ∧ (∀ (s : Status) (h : String) (p : Nat) (u pw r : String),
          (Status.skip s h p u pw r).completed = s.completed + 1)
      ∧ (∀ (s : Status) (h : String) (p : Nat) (u pw : String) (b : Bool),
          (Status.update s h p u pw b).valid_count ≤ s.valid_count + 1) := by
  refine ⟨fun n => ⟨?_, ?_⟩, applyStatusOp_completed_mono, ?_, ?_, ?_⟩
  · exact runOps_valid_le (ops.take n) (Status.init total) (Nat.le_refl 0)
  · rw [runOps_completed]
    have hsplit : (ops.take n).countP isCompleting
        + (ops.drop n).countP isCompleting ≤ total := by
      rw [← List.countP_append, List.take_append_drop]
      exact hbound
    simp [Status.init]
    omega
  · intro s h p u pw b
    simp
  · intro s h p u pw r
    simp [Status.skip]
  · intro s h p u pw b
    simp
    split <;> omega

/-- Witness for C2 at a concrete run: total 2, one successful update then
one skip; at the full-trace observation point `valid_count ≤ completed ≤ 2`. -/
theorem c2_progress_invariants_witness :
    (runOps (Status.init 2)
        ([StatusOp.update "h" 1 "u" "p" true,
          StatusOp.skip "h" 1 "u" "p" "unreachable"].take 2)).valid_count
        ≤ (runOps (Status.init 2)
        ([StatusOp.update "h" 1 "u" "p" true,
          StatusOp.skip "h" 1 "u" "p" "unreachable"].take 2)).completed
      ∧ (runOps (Status.init 2)
        ([StatusOp.update "h" 1 "u" "p" true,
          StatusOp.skip "h" 1 "u" "p" "unreachable"].take 2)).completed ≤ 2 :=
  (c2_progress_invariants 2
    [StatusOp.update "h" 1 "u" "p" true,
     StatusOp.skip "h" 1 "u" "p" "unreachable"] (by decide)).1 2

/-- Processing one trial never removes a key from the unreachable set. -/
theorem test_credential_hosts_mono (s : Status) (t : Trial) (k : String)
    (hk : k ∈ s.unreachable_hosts) :
    k ∈ (test_credential s t).2.2.unreachable_hosts := by
  unfold test_credential
  split
  · simpa [Status.skip] using hk
  · cases t.res with
    | unreachable reason =>
        simp only [Status.skip, Status.set_current, Status.mark_unreachable]
        split
        · exact hk
        · exact List.mem_cons_of_mem _ hk
    | ok auth =>
        simpa [Status.set_current] using hk

/-- Once a key is in the unreachable set, it is still there after any
further sequence of trials. -/
theorem runAll_hosts_mono (tr : List Trial) (s : Status) (k : String)
    (hk : k ∈ s.unreachable_hosts) :
    k ∈ (runAll s tr).1.unreachable_hosts := by
  induction tr generalizing s with
  | nil => exact hk
  | cons t ts ih =>
      exact ih (test_credential s t).2.2 (test_credential_hosts_mono s t k hk)

/-- A trial against a target already marked unreachable takes the skip
branch verbatim: outcome Skipped with the fixed reason, driver not invoked,
`completed` incremented and nothing else changed. -/
theorem test_credential_marked_eq (s : Status) (t : Trial)
    (hmem : targetKey t.targ.host t.targ.port ∈ s.unreachable_hosts) :
    test_credential s t =
      (Outcome.skipped "unreachable", false,
        { s with completed := s.completed + 1 }) := by
  unfold test_credential
  have hcond : Status.is_unreachable s t.targ.host t.targ.port = true := by
    simp [Status.is_unreachable, hmem]
  simp [hcond, Status.skip]

/-- C3: once a target has been marked unreachable, processing any further
trials never invokes the driver for that target again: each such trial
resolves to Skipped with driver-invoked `false`, and a single such trial
increments `completed` by exactly one while leaving everything else
unchanged; the mark itself persists to the end of the run. -/
theorem c3_marked_target_never_reconnects (s : Status) (h : String) (p : Nat)
    (tr : List Trial) (hm : targetKey h p ∈ s.unreachable_hosts) :
    targetKey h p ∈ (runAll s tr).1.unreachable_hosts
      ∧ (∀ pr ∈ tr.zip (runAll s tr).2,
          pr.1.targ.host = h → pr.1.targ.port = p →
          pr.2 = (Outcome.skipped "unreachable", false))
      ∧ (∀ (s2 : Status) (t : Trial),
          targetKey t.targ.host t.targ.port ∈ s2.unreachable_hosts →
          test_credential s2 t =
            (Outcome.skipped "unreachable", false,
              { s2 with completed := s2.completed + 1 })) := by
  refine ⟨runAll_hosts_mono tr s _ hm, ?_, test_credential_marked_eq⟩
  induction tr generalizing s with
  | nil =>
      intro pr hpr
      simp [runAll] at hpr
  | cons t ts ih =>
      intro pr hpr hh hp
      have hzip : (t :: ts).zip (runAll s (t :: ts)).2 =
          (t, ((test_credential s t).1, (test_credential s t).2.1))
            :: ts.zip (runAll (test_credential s t).2.2 ts).2 := by
        simp [runAll]
      rw [hzip, List.mem_cons] at hpr
      rcases hpr with hpr | hpr
      · subst hpr
        have hmem : targetKey t.targ.host t.targ.port ∈ s.unreachable_hosts := by
          rw [hh, hp]
          exact hm
        rw [test_credential_marked_eq s t hmem]
      · exact ih (test_credential s t).2.2
          (test_credential_hosts_mono s t _ hm) pr hpr hh hp

/-- Witness for C3: a state in which `h:1` is marked, one further trial for
it; the trial is Skipped without a driver call and the mark persists. -/
theorem c3_marked_target_never_reconnects_witness :
    targetKey "h" 1 ∈
        (runAll { Status.init 2 with unreachable_hosts := [targetKey "h" 1] }
          [Trial.mk (Credential.mk "u" "p") (Target.mk "h" 1)
            (DriverResult.ok true)]).1.unreachable_hosts :=
  (c3_marked_target_never_reconnects
    { Status.init 2 with unreachable_hosts := [targetKey "h" 1] } "h" 1
    [Trial.mk (Credential.mk "u" "p") (Target.mk "h" 1) (DriverResult.ok true)]
    (by simp)).1

/-- C4: marking a target unreachable is idempotent and first-writer-wins:
from a state where the target is not yet marked, `mark_unreachable` returns
the newly-marked signal `true`, adds the target's key to the set and emits
the console announcement; from a state where it is marked, it returns
`false`, leaves the state unchanged and emits nothing; and no trial ever
removes a key from the set, so within a run exactly one call per target
returns `true` and only that call announces. -/
theorem c4_mark_first_writer_wins :
    (∀ (s : Status) (h : String) (p : Nat) (r : String),
        targetKey h p ∉ s.unreachable_hosts →
        Status.mark_unreachable s h p r =
          (true,
            { s with unreachable_hosts := targetKey h p :: s.unreachable_hosts },
            some ("\n[!] Marking " ++ targetKey h p ++ " as unreachable: "
              ++ r ++ "\n")))
      ∧ (∀ (s : Status) (h : String) (p : Nat) (r : String),
          targetKey h p ∈ s.unreachable_hosts →
          Status.mark_unreachable s h p r = (false, s, none))
      ∧ (∀ (s : Status) (t : Trial) (k : String),
          k ∈ s.unreachable_hosts →
          k ∈ (test_credential s t).2.2.unreachable_hosts) := by
  refine ⟨fun s h p r hnot => ?_, fun s h p r hmem => ?_,
    test_credential_hosts_mono⟩
  · unfold Status.mark_unreachable
    simp [hnot]
  · unfold Status.mark_unreachable
    simp [hmem]

/-- Witness for C4 at a concrete target: the first mark of `h:1` returns
`true` with the announcement, and a second mark returns `false` silently. -/
theorem c4_mark_first_writer_wins_witness :
    Status.mark_unreachable (Status.init 1) "h" 1 "down" =
        (true,
          { Status.init 1 with unreachable_hosts := [targetKey "h" 1] },
          some ("\n[!] Marking " ++ targetKey "h" 1 ++ " as unreachable: "
            ++ "down" ++ "\n"))
      ∧ Status.mark_unreachable
          { Status.init 1 with unreachable_hosts := [targetKey "h" 1] }
          "h" 1 "down again" =
        (false, { Status.init 1 with unreachable_hosts := [targetKey "h" 1] },
          none) :=
  ⟨c4_mark_first_writer_wins.1 (Status.init 1) "h" 1 "down" (by simp [Status.init]),
   c4_mark_first_writer_wins.2.1
     { Status.init 1 with unreachable_hosts := [targetKey "h" 1] }
     "h" 1 "down again" (by simp)⟩

/-- C5 counterexample: 2 targets A and B, 2 credentials, A's first trial
raises `HostUnreachable("connection refused")` and A's second trial is
dispatched afterwards. A's second trial is Skipped with the fixed reason
"unreachable", which differs from the original reason of A's first trial's
error, refuting the claim that the original reason is recorded. -/
theorem c5_counterexample :
    ((runAll (Status.init 4)
        [Trial.mk (Credential.mk "u1" "p1") (Target.mk "A" 1)
            (DriverResult.unreachable "connection refused"),
          Trial.mk (Credential.mk "u1" "p1") (Target.mk "B" 2)
            (DriverResult.ok false),
          Trial.mk (Credential.mk "u2" "p2") (Target.mk "A" 1)
            (DriverResult.ok false),
          Trial.mk (Credential.mk "u2" "p2") (Target.mk "B" 2)
            (DriverResult.ok false)]).2.get? 2
        = some (Outcome.skipped "unreachable", false))
      ∧ Outcome.skipped "unreachable" ≠ Outcome.skipped "connection refused" := by
  constructor
  · rfl
  · decide

/-- C5 (amended): in the 2 targets × 2 credentials scenario where A's first
trial raises `HostUnreachable` with some reason and A's second trial is
dispatched afterwards, A's second trial resolves to Skipped with the fixed
reason "unreachable" (the original reason is recorded only by A's first
trial's own skip), without invoking the driver, while B's two trials proceed
normally with their driver invocations unaffected. -/
theorem c5_second_trial_skipped_fixed_reason (hA hB : String) (pA pB : Nat)
    (r : String) (cr1 cr2 : Credential) (b1 b2 : Bool) (rA2 : DriverResult)
    (hne : targetKey hA pA ≠ targetKey hB pB) :
    (runAll (Status.init 4)
        [Trial.mk cr1 (Target.mk hA pA) (DriverResult.unreachable r),
          Trial.mk cr1 (Target.mk hB pB) (DriverResult.ok b1),
          Trial.mk cr2 (Target.mk hA pA) rA2,
          Trial.mk cr2 (Target.mk hB pB) (DriverResult.ok b2)]).2 =
      [(Outcome.skipped r, true),
        ((if b1 then Outcome.success else Outcome.failure), true),
        (Outcome.skipped "unreachable", false),
        ((if b2 then Outcome.success else Outcome.failure), true)] := by
  have hne2 : targetKey hB pB ≠ targetKey hA pA := hne.symm
  simp [runAll, test_credential, Status.is_unreachable, Status.set_current,
    Status.mark_unreachable, Status.skip, Status.init, hne, hne2]

/-- Witness for C5 (amended) at concrete hosts A:1 and B:2. -/
theorem c5_second_trial_skipped_fixed_reason_witness :
    (runAll (Status.init 4)
        [Trial.mk (Credential.mk "u1" "p1") (Target.mk "A" 1)
            (DriverResult.unreachable "connection refused"),
          Trial.mk (Credential.mk "u1" "p1") (Target.mk "B" 2)
            (DriverResult.ok true),
          Trial.mk (Credential.mk "u2" "p2") (Target.mk "A" 1)
            (DriverResult.ok false),
          Trial.mk (Credential.mk "u2" "p2") (Target.mk "B" 2)
            (DriverResult.ok false)]).2 =
      [(Outcome.skipped "connection refused", true),
        ((if true then Outcome.success else Outcome.failure), true),
        (Outcome.skipped "unreachable", false),
        ((if false then Outcome.success else Outcome.failure), true)] :=
  c5_second_trial_skipped_fixed_reason "A" "B" 1 2 "connection refused"
    (Credential.mk "u1" "p1") (Credential.mk "u2" "p2") true false
    (DriverResult.ok false) (by decide)

/-- Counting one pair in the block of trials of a single credential. -/
theorem countP_pair_map (c0 : Credential) (ts : List Target)
    (c : Credential) (t : Target) :
    (ts.map (fun x => (c0, x))).countP (fun x => decide (x = (c, t))) =
      if c0 = c then ts.countP (fun x => decide (x = t)) else 0 := by
  induction ts with
  | nil => simp
  | cons t0 ts ih =>
      simp only [List.map_cons, List.countP_cons, ih]
      by_cases hc : c0 = c <;> by_cases ht : t0 = t <;>
        simp [hc, ht, Prod.mk.injEq]

/-- Each pair occurs in the trial sequence as often as its credential occurs
in the credential list times as often as its target occurs in the targets. -/
theorem trialPairs_countP (cs : List Credential) (ts : List Target)
    (c : Credential) (t : Target) :
    (trialPairs cs ts).countP (fun x => decide (x = (c, t))) =
      cs.countP (fun x => decide (x = c))
        * ts.countP (fun x => decide (x = t)) := by
  induction cs with
  | nil => simp [trialPairs]
  | cons c0 cs ih =>
      simp only [trialPairs, List.flatMap_cons, List.countP_append,
        List.countP_cons] at *
      rw [countP_pair_map, ih]
      by_cases hc : c0 = c
      · simp [hc]
        ring
      · simp [hc]

/-- The trial at position `i * |targets| + j` pairs credential `i` with
target `j`: the credential loop is outer, the target loop inner. -/
theorem trialPairs_get (cs : List Credential) (ts : List Target) (i j : Nat)
    (hi : i < cs.length) (hj : j < ts.length) :
    (trialPairs cs ts).get? (i * ts.length + j) =
      some (cs.get ⟨i, hi⟩, ts.get ⟨j, hj⟩) := by
  induction cs generalizing i with
  | nil => simp at hi
  | cons c0 cs ih =>
      cases i with
      | zero =>
          simp only [trialPairs, List.flatMap_cons, Nat.zero_mul, Nat.zero_add]
          rw [List.get?_append (by simpa using hj), List.get?_map,
            List.get?_eq_get hj]
          rfl
      | succ i =>
          have hi2 : i < cs.length := Nat.lt_of_succ_lt_succ hi
          have hidx : (i + 1) * ts.length + j =
              ts.length + (i * ts.length + j) := by ring
          simp only [trialPairs, List.flatMap_cons, hidx]
          rw [List.get?_append_right (by simp)]
          simp only [List.length_map, Nat.add_sub_cancel_left]
          exact ih i hi2

/-- C6: the submitted trial sequence is exactly the ordered cross product
with the credential as the outer iteration and the target as the inner one:
it has length |credentials| × |targets|, the entry at position
`i * |targets| + j` is (credential i, target j), and each pair occurs
exactly as often as its components occur in the inputs — in particular
nothing is missing or duplicated. -/
theorem c6_trial_sequence_order (credentials : List Credential)
    (targets : List Target) :
    (trialPairs credentials targets).length
        = credentials.length * targets.length
      ∧ (∀ (i j : Nat) (hi : i < credentials.length)
            (hj : j < targets.length),
          (trialPairs credentials targets).get? (i * targets.length + j) =
            some (credentials.get ⟨i, hi⟩, targets.get ⟨j, hj⟩))
      ∧ (∀ (c : Credential) (t : Target),
          (trialPairs credentials targets).countP (fun x => decide (x = (c, t)))
            = credentials.countP (fun x => decide (x = c))
              * targets.countP (fun x => decide (x = t))) :=
  ⟨trialPairs_length credentials targets,
   fun i j hi hj => trialPairs_get credentials targets i j hi hj,
   fun c t => trialPairs_countP credentials targets c t⟩

/-- Witness for C6 at 2 credentials × 2 targets: the entry at position
`1 * 2 + 0` is (second credential, first target). -/
theorem c6_trial_sequence_order_witness :
    (trialPairs [Credential.mk "u1" "p1", Credential.mk "u2" "p2"]
        [Target.mk "A" 1, Target.mk "B" 2]).get?
        (1 * [Target.mk "A" 1, Target.mk "B" 2].length + 0) =
      some (Credential.mk "u2" "p2", Target.mk "A" 1) :=
  (c6_trial_sequence_order [Credential.mk "u1" "p1", Credential.mk "u2" "p2"]
    [Target.mk "A" 1, Target.mk "B" 2]).2.1 1 0 (by decide) (by decide)

/-- One lock step preserves the lock-ownership invariant. -/
theorem pool_step_preserves {n : Nat} {tgt : Fin n → Target}
    {s s2 : PoolState n} (hs : PoolStep n tgt s s2)
    (ih : ∀ w : Fin n, s.phase w = WPhase.inFlight → s.owner (tgt w) = some w) :
    ∀ w : Fin n, s2.phase w = WPhase.inFlight → s2.owner (tgt w) = some w := by
  cases hs with
  | acquire w hidle hfree =>
      intro w2 hph
      dsimp only at hph ⊢
      by_cases hw : w2 = w
      · subst hw
        simp [Function.update_same]
      · rw [Function.update_noteq hw] at hph
        have hown := ih w2 hph
        by_cases ht : tgt w2 = tgt w
        · rw [ht, hfree] at hown
          exact absurd hown (by simp)
        · rw [Function.update_noteq ht]
          exact hown
  | release w hph0 =>
      intro w2 hph
      dsimp only at hph ⊢
      by_cases hw : w2 = w
      · subst hw
        rw [Function.update_same] at hph
        exact absurd hph (by simp)
      · rw [Function.update_noteq hw] at hph
        have hown := ih w2 hph
        by_cases ht : tgt w2 = tgt w
        · have hw0 := ih w hph0
          rw [ht, hw0] at hown
          exact absurd (Option.some.inj hown).symm hw
        · rw [Function.update_noteq ht]
          exact hown

theorem pool_inFlight_owns {n : Nat} {tgt : Fin n → Target} {s : PoolState n}
    (hr : PoolReach n tgt s) :
    ∀ w : Fin n, s.phase w = WPhase.inFlight → s.owner (tgt w) = some w := by
  induction hr with
  | init =>
      intro w hw
      simp [initPool] at hw
  | step hr hs ih =>
      exact pool_step_preserves hs ih

/-- C7: in every reachable state of the worker pool — any pool size, any
interleaving of lock acquisitions and releases, where a worker may enter its
driver call only by acquiring its target's lock and holds it across the call
— at most one worker has an in-flight driver invocation for any given
target: two workers in flight on the same target are the same worker. -/
theorem c7_one_inflight_per_target (n : Nat) (tgt : Fin n → Target)
    (s : PoolState n) (hr : PoolReach n tgt s) (w1 w2 : Fin n)
    (h1 : s.phase w1 = WPhase.inFlight) (h2 : s.phase w2 = WPhase.inFlight)
    (ht : tgt w1 = tgt w2) : w1 = w2 := by
  have i1 := pool_inFlight_owns hr w1 h1
  have i2 := pool_inFlight_owns hr w2 h2
  rw [ht, i2] at i1
  exact (Option.some.inj i1).symm

/-- Witness for C7: one worker, one target, the state after that worker
acquires the lock and enters its driver call. -/
theorem c7_one_inflight_per_target_witness : (0 : Fin 1) = (0 : Fin 1) :=
  c7_one_inflight_per_target 1 (fun _ => Target.mk "h" 1)
    { phase := Function.update (initPool 1).phase 0 WPhase.inFlight,
      owner := Function.update (initPool 1).owner
        ((fun _ => Target.mk "h" 1) (0 : Fin 1)) (some 0) }
    (PoolReach.step PoolReach.init
      (PoolStep.acquire (initPool 1) 0 rfl rfl))
    0 0 (by simp [Function.update_same]) (by simp [Function.update_same]) rfl

theorem length_asString (l : List Char) : (List.asString l).length = l.length :=
  rfl

/-- C8 counterexample: at a reported terminal width of 2 columns, the
truncation `status[:cols-3] + "..."` uses a negative slice bound, which in
Python drops characters from the end instead of bounding the length; the
rendered status text is longer than the terminal width. -/
theorem c8_counterexample :
    2 < (truncateStatus (statusLine (Status.init 0) "h:1" "u" "p") 2).length := by
  decide

/-- C8 (amended): for every tracker state and every terminal width of at
least 3 columns reported at render time, the rendered status text is
truncated to at most the terminal width, and it is preceded by carriage
return plus clear-to-end-of-line so it overwrites the previous line; for
widths below 3 the truncated text can exceed the width. -/
theorem c8_status_line_truncation (s : Status) (target username password : String)
    (cols : Nat) (h3 : 3 ≤ cols) :
    (truncateStatus (statusLine s target username password) cols).length ≤ cols
      ∧ drawStatus s target username password cols =
          "\r" ++ "\x1b[K"
            ++ truncateStatus (statusLine s target username password) cols := by
  refine ⟨?_, rfl⟩
  unfold truncateStatus
  split
  · have h1 : ((cols : Int) - 3).toNat = cols - 3 := by omega
    have h2 : (pySliceTo (statusLine s target username password).toList
        ((cols : Int) - 3)).length ≤ cols - 3 := by
      unfold pySliceTo
      rw [if_pos (by omega), h1]
      simp [List.length_take]
    calc ((pySliceTo (statusLine s target username password).toList
            ((cols : Int) - 3)) ++ "...".toList).asString.length
        = (pySliceTo (statusLine s target username password).toList
            ((cols : Int) - 3)).length + 3 := by
          rw [length_asString, List.length_append]
          rfl
      _ ≤ (cols - 3) + 3 := by omega
      _ = cols := by omega
  · next hlen =>
      omega

/-- Witness for C8 (amended) at width 80: the rendered text fits. -/
theorem c8_status_line_truncation_witness :
    (truncateStatus (statusLine (Status.init 1) "h:1" "u" "p") 80).length ≤ 80
      ∧ drawStatus (Status.init 1) "h:1" "u" "p" 80 =
          "\r" ++ "\x1b[K"
            ++ truncateStatus (statusLine (Status.init 1) "h:1" "u" "p") 80 :=
  c8_status_line_truncation (Status.init 1) "h:1" "u" "p" 80 (by omega)

/-- C9: for every run that reaches the final summary, the process exit
status is non-zero exactly when no valid credential was found by run end. -/
theorem c9_exit_nonzero_iff_no_valid (n : Nat) (tr : List Trial) :
    exitCode ((runAll (Status.init n) tr).1.valid_count) ≠ 0
      ↔ (runAll (Status.init n) tr).1.valid_count = 0 := by
  unfold exitCode
  split
  · next h => simp; omega
  · next h => simp; omega

/-- The part of a line before its first colon contains no colon. -/
theorem splitFirstColon_no_colon (cs : List Char) :
    ':' ∉ (splitFirstColon cs).1 := by
  induction cs with
  | nil => simp [splitFirstColon]
  | cons c cs ih =>
      unfold splitFirstColon
      by_cases h : c = ':'
      · simp [h]
      · simp [h, ih]
        exact fun heq => absurd heq.symm h

/-- `parse_credential_file` keeps exactly the stripped, non-empty,
non-comment, colon-containing lines, in order, split at the first colon. -/
theorem parse_eq_spec (lines : List String) :
    parse_credential_file lines = parseSpecLines lines := by
  induction lines with
  | nil => rfl
  | cons l ls ih =>
      unfold parse_credential_file parseSpecLines
      rw [List.filter_cons]
      by_cases h1 : l.trim = ""
      · rw [if_pos h1, if_neg (by simp [h1])]
        exact ih
      · rw [if_neg h1]
        by_cases h2 : l.trim.startsWith "#"
        · rw [if_pos h2, if_neg (by simp [h1, h2])]
          exact ih
        · rw [if_neg h2]
          by_cases h3 : l.trim.contains ':'
          · rw [if_pos h3, if_pos (by simp [h1, h2, h3]), List.map_cons]
            exact congrArg _ ih
          · rw [if_neg h3, if_neg (by simp [h1, h2, h3])]
            exact ih

/-- Every username produced by the parser is free of colons. -/
theorem parse_no_colon (lines : List String) :
    (parse_credential_file lines).all
      (fun pr => !(pr.1.toList.contains ':')) = true := by
  induction lines with
  | nil => rfl
  | cons l ls ih =>
      unfold parse_credential_file
      by_cases h1 : l.trim = ""
      · rw [if_pos h1]
        exact ih
      · rw [if_neg h1]
        by_cases h2 : l.trim.startsWith "#"
        · rw [if_pos h2]
          exact ih
        · rw [if_neg h2]
          by_cases h3 : l.trim.contains ':'
          · rw [if_pos h3, List.all_cons, ih]
            have hdata : ∀ l : List Char, (List.asString l).data = l := fun _ => rfl
            simp [hdata, splitFirstColon_no_colon]
          · rw [if_neg h3]
            exact ih

/-- C10: `parse_credential_file` returns exactly the (username, password)
pairs of the lines that, after stripping, are non-empty, do not start with
`#` and contain at least one colon; each kept line is split at its first
colon only (so the username never contains a colon), other lines are
silently dropped, and the output order matches the file order. -/
theorem c10_parse_credential_lines (lines : List String) :
    parse_credential_file lines = parseSpecLines lines
      ∧ (parse_credential_file lines).all
          (fun pr => !(pr.1.toList.contains ':')) = true :=
  ⟨parse_eq_spec lines, parse_no_colon lines⟩

end DbBrute
